import Mathlib

/-!
Shallow embedding of the trade-performance core of a client-side Solana
trade journal.  The core consists of the price-series client
(GeckoTerminalAPI.getOHLCV) and the performance analyzer
(analyzeTradePerformance), together with the sell-field handling of
TradeInputForm.handleSubmit that shapes the records the analyzer consumes.

Modelling conventions:
* JavaScript numbers are modelled as exact rationals; the provider rows hold
  finite numeric entries, so no NaN or infinity value occurs in an input.
* A provider candle is the positional array [timestamp, open, high, low,
  close, volume]; the source only ever reads it by index (candle[0] in the
  window filter, array destructuring in the extremum scan), so a row is
  embedded as a plain list of numbers.  Reading an index that is out of
  range yields JavaScript undefined, whose comparisons are all false; the
  embedding models such a read as Option.none and the scan skips it,
  matching the false comparisons.
* The +Infinity / -Infinity initial sentinels of the extremum scan are
  modelled as Option.none: a finite value compares below +Infinity and
  above -Infinity, which is the none case of ltMin / gtMax below.
* The network fetch and the wall clock are the two effects of the source;
  the fetch outcome and the evaluation instant (Date.now()) are passed as
  explicit parameters.
* Date parsing of the timestamp strings stored on a trade is not modelled:
  a trade's buyTimestamp / sellTimestamp fields hold the millisecond
  instant that new Date(...).getTime() yields on the stored string.
-/

/-- Positional provider candle element: one entry of the ohlcv_list array of
arrays, read by the source only through numeric indices. -/
abbrev OhlcvRow := List ℚ

/-- Parsed JSON body of the OHLCV endpoint.  ohlcvList models the optional
chain data.data?.attributes?.ohlcv_list: none when any link is missing or
null, some when the list is present. -/
structure GTBody where
  ohlcvList : Option (List OhlcvRow)
deriving DecidableEq

/-- Outcome of the fetch inside GeckoTerminalAPI.getOHLCV: the promise
either rejects (network failure / timeout), or resolves to a response
carrying an HTTP status code and a body that either fails JSON parsing
(none, so response.json() throws) or parses to a GTBody. -/
inductive FetchOutcome where
  | networkError : FetchOutcome
  | response : Nat → Option GTBody → FetchOutcome
deriving DecidableEq

/-- Embedding of GeckoTerminalAPI.getOHLCV after the fetch outcome is fixed:
the try/catch turns a rejected fetch or a throwing response.json() into [],
and the `data.data?.attributes?.ohlcv_list || []` expression turns a missing
list into [] and returns a present list unchanged (a JavaScript array is
always truthy, so `|| []` fires exactly when the optional chain yields
undefined or null).  The HTTP status code is never inspected by the source,
which is why the status argument is unused here. -/
def getOHLCV : FetchOutcome → List OhlcvRow
  | .networkError => []
  | .response _ none => []
  | .response _ (some b) => b.ohlcvList.getD []

/-- Canonical named-field candle shape.  Modelled from the spec: "the client
must map each element into the canonical Candle shape (timestamp, open,
high, low, close[, volume]) before returning"; no such named shape exists in
the source, which passes the positional rows through unchanged. -/
structure Candle where
  timestamp : ℚ
  open_ : ℚ
  high : ℚ
  low : ℚ
  close : ℚ
  volume : Option ℚ
deriving DecidableEq

/-- Modelled from the spec: the positional-to-named mapping the spec assigns
to the client, reading index 0 as timestamp, 1 as open, 2 as high, 3 as low,
4 as close and 5 (when present) as volume. -/
def normalizeRow : OhlcvRow → Option Candle
  | t :: o :: h :: l :: c :: rest => some ⟨t, o, h, l, c, rest.head?⟩
  | _ => none

/-- Trade record as built by TradeInputForm.handleSubmit, restricted to the
fields the analyzer and the claims read.  sellPrice is null (none) when the
sell-price form field is empty, and otherwise the parsed number (which may
be 0).  sellTimestamp is null (none) when the sell-time field is empty
(`formData.sellTimestamp || null`), and otherwise the millisecond instant of
the stored string.  buyTimestamp is the millisecond instant of the buy time. -/
structure TradeRecord where
  buyPrice : ℚ
  buyTimestamp : ℚ
  sellPrice : Option ℚ
  sellTimestamp : Option ℚ
  status : String
deriving DecidableEq

/-- Embedding of the sell-field logic of TradeInputForm.handleSubmit:
`sellPrice: formData.sellPrice ? parseFloat(formData.sellPrice) : null`,
`sellTimestamp: formData.sellTimestamp || null`, and
`status: formData.sellPrice ? 'closed' : 'open'`.  A form field is a string,
truthy exactly when non-empty; sellPriceField is none for the empty string
and some q when the non-empty field parses to q (the string "0" is truthy,
so it yields some 0 and status "closed"). -/
def handleSubmitTrade (buyPrice buyTimestamp : ℚ)
    (sellPriceField sellTimestampField : Option ℚ) : TradeRecord :=
  { buyPrice := buyPrice
    buyTimestamp := buyTimestamp
    sellPrice := sellPriceField
    sellTimestamp := sellTimestampField
    status := match sellPriceField with
      | some _ => "closed"
      | none => "open" }

/-- Performance summary attached to a trade by the analyzer.  minPrice and
maxPrice are none exactly when the corresponding Infinity sentinel survived
the scan (no candle supplied the field); minTimestamp and maxTimestamp are
none exactly when the source leaves them null.  maxGainPercent and
maxDrawdownPercent are none exactly when the source value would be the
non-finite number derived from a surviving sentinel. -/
structure PerformanceSummary where
  minPrice : Option ℚ
  maxPrice : Option ℚ
  minTimestamp : Option ℚ
  maxTimestamp : Option ℚ
  pnlPercent : Option ℚ
  maxGainPercent : Option ℚ
  maxDrawdownPercent : Option ℚ
  capturedPercent : Option ℚ
  candleCount : Nat
deriving DecidableEq

/-- Return value of the analyzer: the spread `{ ...trade, analysis }` of the
source, i.e. the input trade together with an optional summary. -/
structure AnalyzedTrade where
  trade : TradeRecord
  analysis : Option PerformanceSummary
deriving DecidableEq

/-- Embedding of `const buyTime = new Date(buyTimestamp).getTime()`. -/
def buyTime (trade : TradeRecord) : ℚ := trade.buyTimestamp

/-- Embedding of
`const sellTime = sellTimestamp ? new Date(sellTimestamp).getTime() : Date.now()`:
the recorded sell instant when one is present, else the evaluation instant.
Note the branch is on sellTimestamp, not on the trade's status field. -/
def sellTime (trade : TradeRecord) (now : ℚ) : ℚ :=
  match trade.sellTimestamp with
  | some t => t
  | none => now

/-- Window predicate of the filter: `const candleTime = candle[0] * 1000;
return candleTime >= buyTime && candleTime <= sellTime;`.  A row with no
entry at index 0 yields undefined, NaN after the multiplication, and both
comparisons false. -/
def inWindow (buyT sellT : ℚ) (candle : OhlcvRow) : Bool :=
  match candle[0]? with
  | none => false
  | some ts => decide (buyT ≤ ts * 1000) && decide (ts * 1000 ≤ sellT)

/-- Embedding of `const relevantCandles = ohlcvData.filter(...)`. -/
def relevantCandles (trade : TradeRecord) (ohlcvData : List OhlcvRow)
    (now : ℚ) : List OhlcvRow :=
  ohlcvData.filter (inWindow (buyTime trade) (sellTime trade now))

/-- State of the extremum scan: the four let-variables of the source, with
none encoding the Infinity / -Infinity / null initial values. -/
structure ScanState where
  minPrice : Option ℚ
  maxPrice : Option ℚ
  minTimestamp : Option ℚ
  maxTimestamp : Option ℚ
deriving DecidableEq

/-- Initial scan state: minPrice = Infinity, maxPrice = -Infinity,
minTimestamp = maxTimestamp = null. -/
def initScan : ScanState := ⟨none, none, none, none⟩

/-- Comparison `low < minPrice`: every finite low is below the Infinity
sentinel (none), else an ordinary strict comparison. -/
def ltMin (lo : ℚ) : Option ℚ → Bool
  | none => true
  | some m => decide (lo < m)

/-- Comparison `high > maxPrice`: every finite high is above the -Infinity
sentinel (none), else an ordinary strict comparison. -/
def gtMax (hi : ℚ) : Option ℚ → Bool
  | none => true
  | some m => decide (m < hi)

/-- One iteration of `relevantCandles.forEach(candle => ...)`: destructure
`[ts, open, high, low, close]` positionally, update the minimum on
`low < minPrice` and then the maximum on `high > maxPrice`.  A row too short
to supply low (resp. high) leaves undefined in the comparison, which is
false, so the corresponding update is skipped. -/
def scanStep (s : ScanState) (candle : OhlcvRow) : ScanState :=
  let ts := candle[0]?
  let s1 :=
    match candle[3]? with
    | some lo =>
        if ltMin lo s.minPrice then
          { s with minPrice := some lo, minTimestamp := ts.map (fun t => t * 1000) }
        else s
    | none => s
  match candle[2]? with
  | some hi =>
      if gtMax hi s1.maxPrice then
        { s1 with maxPrice := some hi, maxTimestamp := ts.map (fun t => t * 1000) }
      else s1
  | none => s1

/-- Embedding of `relevantCandles.forEach(...)`: fold the scan step over the
filtered rows starting from the sentinel state. -/
def scanResult (relevant : List OhlcvRow) : ScanState :=
  relevant.foldl scanStep initScan

/-- Derived percentage `((value - buyPrice) / buyPrice) * 100`. -/
def percentFrom (buyPrice value : ℚ) : ℚ :=
  (value - buyPrice) / buyPrice * 100

/-- Embedding of `const pnlPercent = trade.sellPrice ? ((trade.sellPrice -
buyPrice) / buyPrice) * 100 : null`.  The test is JavaScript truthiness on a
number-or-null field, so both null and a recorded 0 yield null. -/
def pnlPercentOf (trade : TradeRecord) : Option ℚ :=
  match trade.sellPrice with
  | some sp => if sp = 0 then none else some (percentFrom trade.buyPrice sp)
  | none => none

/-- Embedding of `const maxGainPercent = ((maxPrice - buyPrice) / buyPrice) *
100` on the scanned state; none encodes the non-finite value the source
derives when the -Infinity sentinel survived the scan. -/
def maxGainPercentOf (trade : TradeRecord) (st : ScanState) : Option ℚ :=
  st.maxPrice.map (percentFrom trade.buyPrice)

/-- Embedding of `const maxDrawdownPercent = ((minPrice - buyPrice) /
buyPrice) * 100` on the scanned state; none encodes the non-finite value the
source derives when the Infinity sentinel survived the scan. -/
def maxDrawdownPercentOf (trade : TradeRecord) (st : ScanState) : Option ℚ :=
  st.minPrice.map (percentFrom trade.buyPrice)

/-- Embedding of `const capturedPercent = pnlPercent !== null &&
maxGainPercent > 0 ? (pnlPercent / maxGainPercent) * 100 : null`.  When gain
is the none encoding of a sentinel-derived non-finite value the embedding
yields null, which agrees with the source whenever buyPrice is positive (the
sentinel-derived gain is then -Infinity, failing the `> 0` test). -/
def capturedPercentOf (pnl gain : Option ℚ) : Option ℚ :=
  match pnl, gain with
  | some p, some g => if 0 < g then some (p / g * 100) else none
  | _, _ => none

/-- Embedding of analyzeTradePerformance after the fetch result and the
evaluation instant are fixed: the two empty short-circuits, the window
filter, the extremum scan, and the derived metrics; the source's local
let-bindings are the named definitions above. -/
def analyzeTradePerformance (trade : TradeRecord) (ohlcvData : List OhlcvRow)
    (now : ℚ) : AnalyzedTrade :=
  if ohlcvData.isEmpty then ⟨trade, none⟩
  else
    let relevant := relevantCandles trade ohlcvData now
    if relevant.isEmpty then ⟨trade, none⟩
    else
      let st := scanResult relevant
      let pnl := pnlPercentOf trade
      let gain := maxGainPercentOf trade st
      ⟨trade, some ⟨st.minPrice, st.maxPrice, st.minTimestamp, st.maxTimestamp,
        pnl, gain, maxDrawdownPercentOf trade st, capturedPercentOf pnl gain,
        relevant.length⟩⟩

/-!
Characterization of the extremum scan.  lowsOf / highsOf extract, in
filtered order, the (low, millisecond timestamp) respectively
(high, millisecond timestamp) pairs the scan can read from each row; a row
too short to supply the price entry contributes nothing, exactly as the
scan skips it.  runMin / runMax are the first-occurrence extremum of such a
pair list, modelled from the spec wording "track the minimum low value seen
and the maximum high value seen, each paired with the timestamp of the
candle in which it occurred; the first one encountered wins ties".
-/

/-- Pairs (low, timestamp * 1000) of the rows that supply index 3, in order. -/
def lowsOf (l : List OhlcvRow) : List (ℚ × ℚ) :=
  l.filterMap (fun row =>
    match row[3]?, row[0]? with
    | some lo, some t => some (lo, t * 1000)
    | _, _ => none)

/-- Pairs (high, timestamp * 1000) of the rows that supply index 2, in order. -/
def highsOf (l : List OhlcvRow) : List (ℚ × ℚ) :=
  l.filterMap (fun row =>
    match row[2]?, row[0]? with
    | some hi, some t => some (hi, t * 1000)
    | _, _ => none)

/-- Projection of one scan step to the minimum-tracking pair. -/
def minStep (acc : Option ℚ × Option ℚ) (p : ℚ × ℚ) : Option ℚ × Option ℚ :=
  if ltMin p.1 acc.1 then (some p.1, some p.2) else acc

/-- Projection of one scan step to the maximum-tracking pair. -/
def maxStep (acc : Option ℚ × Option ℚ) (p : ℚ × ℚ) : Option ℚ × Option ℚ :=
  if gtMax p.1 acc.1 then (some p.1, some p.2) else acc

/-- Modelled from the spec: running minimum with the first occurrence of the
minimal value keeping its timestamp (a later pair replaces the accumulator
only when strictly smaller). -/
def runMin (acc : ℚ × ℚ) : List (ℚ × ℚ) → ℚ × ℚ
  | [] => acc
  | p :: rest => runMin (if p.1 < acc.1 then p else acc) rest

/-- Modelled from the spec: running maximum with the first occurrence of the
maximal value keeping its timestamp (a later pair replaces the accumulator
only when strictly greater). -/
def runMax (acc : ℚ × ℚ) : List (ℚ × ℚ) → ℚ × ℚ
  | [] => acc
  | p :: rest => runMax (if acc.1 < p.1 then p else acc) rest

theorem entry_zero_of_entry_three {row : OhlcvRow} {lo : ℚ}
    (h : row[3]? = some lo) : ∃ t, row[0]? = some t := by
  match row with
  | [] => simp at h
  | a :: _ => exact ⟨a, by simp⟩

theorem entry_zero_of_entry_two {row : OhlcvRow} {hi : ℚ}
    (h : row[2]? = some hi) : ∃ t, row[0]? = some t := by
  match row with
  | [] => simp at h
  | a :: _ => exact ⟨a, by simp⟩

theorem scanStep_min_proj (s : ScanState) (row : OhlcvRow) :
    ((scanStep s row).minPrice, (scanStep s row).minTimestamp)
      = match row[3]?, row[0]? with
        | some lo, some t => minStep (s.minPrice, s.minTimestamp) (lo, t * 1000)
        | _, _ => (s.minPrice, s.minTimestamp) := by
  rcases h3 : row[3]? with _ | lo
  · rcases h2 : row[2]? with _ | hi <;>
      · simp [scanStep, h3, h2] <;> split <;> simp
  · obtain ⟨t, h0⟩ := entry_zero_of_entry_three h3
    rcases h2 : row[2]? with _ | hi <;>
      · simp [scanStep, h3, h2, h0, minStep] <;> split_ifs <;> simp_all

theorem scanStep_max_proj (s : ScanState) (row : OhlcvRow) :
    ((scanStep s row).maxPrice, (scanStep s row).maxTimestamp)
      = match row[2]?, row[0]? with
        | some hi, some t => maxStep (s.maxPrice, s.maxTimestamp) (hi, t * 1000)
        | _, _ => (s.maxPrice, s.maxTimestamp) := by
  rcases h2 : row[2]? with _ | hi
  · rcases h3 : row[3]? with _ | lo <;>
      · simp [scanStep, h3, h2] <;> split_ifs <;> simp_all
  · obtain ⟨t, h0⟩ := entry_zero_of_entry_two h2
    rcases h3 : row[3]? with _ | lo <;>
      · simp [scanStep, h3, h2, h0, maxStep] <;> split_ifs <;> simp_all

theorem foldl_scan_min (l : List OhlcvRow) : ∀ s : ScanState,
    ((l.foldl scanStep s).minPrice, (l.foldl scanStep s).minTimestamp)
      = (lowsOf l).foldl minStep (s.minPrice, s.minTimestamp) := by
  induction l with
  | nil => intro s; simp [lowsOf]
  | cons row tl ih =>
    intro s
    have hstep := scanStep_min_proj s row
    rcases h3 : row[3]? with _ | lo
    · rcases h0 : row[0]? with _ | t <;> simp only [h3, h0] at hstep <;>
      · have hlow : lowsOf (row :: tl) = lowsOf tl := by simp [lowsOf, h3]
        simp only [List.foldl_cons, hlow]
        rw [ih (scanStep s row), hstep]
    · rcases h0 : row[0]? with _ | t
      · obtain ⟨t', h0'⟩ := entry_zero_of_entry_three h3
        rw [h0] at h0'; cases h0'
      · simp only [h3, h0] at hstep
        have hlow : lowsOf (row :: tl) = (lo, t * 1000) :: lowsOf tl := by
          simp [lowsOf, h3, h0]
        simp only [List.foldl_cons, hlow]
        rw [ih (scanStep s row), hstep]

theorem foldl_scan_max (l : List OhlcvRow) : ∀ s : ScanState,
    ((l.foldl scanStep s).maxPrice, (l.foldl scanStep s).maxTimestamp)
      = (highsOf l).foldl maxStep (s.maxPrice, s.maxTimestamp) := by
  induction l with
  | nil => intro s; simp [highsOf]
  | cons row tl ih =>
    intro s
    have hstep := scanStep_max_proj s row
    rcases h2 : row[2]? with _ | hi
    · rcases h0 : row[0]? with _ | t <;> simp only [h2, h0] at hstep <;>
      · have hhigh : highsOf (row :: tl) = highsOf tl := by simp [highsOf, h2]
        simp only [List.foldl_cons, hhigh]
        rw [ih (scanStep s row), hstep]
    · rcases h0 : row[0]? with _ | t
      · obtain ⟨t', h0'⟩ := entry_zero_of_entry_two h2
        rw [h0] at h0'; cases h0'
      · simp only [h2, h0] at hstep
        have hhigh : highsOf (row :: tl) = (hi, t * 1000) :: highsOf tl := by
          simp [highsOf, h2, h0]
        simp only [List.foldl_cons, hhigh]
        rw [ih (scanStep s row), hstep]

theorem foldl_minStep_some (L : List (ℚ × ℚ)) : ∀ a : ℚ × ℚ,
    L.foldl minStep (some a.1, some a.2)
      = (some (runMin a L).1, some (runMin a L).2) := by
  induction L with
  | nil => intro a; simp [runMin]
  | cons p rest ih =>
    intro a
    by_cases hc : p.1 < a.1
    · have h1 : minStep (some a.1, some a.2) p = (some p.1, some p.2) := by
        simp [minStep, ltMin, hc]
      have h2 : runMin a (p :: rest) = runMin p rest := by
        simp [runMin, hc]
      simp only [List.foldl_cons, h1, h2]
      exact ih p
    · have h1 : minStep (some a.1, some a.2) p = (some a.1, some a.2) := by
        simp [minStep, ltMin, hc]
      have h2 : runMin a (p :: rest) = runMin a rest := by
        simp [runMin, hc]
      simp only [List.foldl_cons, h1, h2]
      exact ih a

theorem foldl_minStep_none (L : List (ℚ × ℚ)) (p : ℚ × ℚ) (x : Option ℚ) :
    ((p :: L).foldl minStep (none, x))
      = (some (runMin p L).1, some (runMin p L).2) := by
  have h1 : minStep (none, x) p = (some p.1, some p.2) := by simp [minStep, ltMin]
  simp only [List.foldl_cons, h1]
  exact foldl_minStep_some L p

theorem foldl_maxStep_some (L : List (ℚ × ℚ)) : ∀ a : ℚ × ℚ,
    L.foldl maxStep (some a.1, some a.2)
      = (some (runMax a L).1, some (runMax a L).2) := by
  induction L with
  | nil => intro a; simp [runMax]
  | cons p rest ih =>
    intro a
    by_cases hc : a.1 < p.1
    · have h1 : maxStep (some a.1, some a.2) p = (some p.1, some p.2) := by
        simp [maxStep, gtMax, hc]
      have h2 : runMax a (p :: rest) = runMax p rest := by
        simp [runMax, hc]
      simp only [List.foldl_cons, h1, h2]
      exact ih p
    · have h1 : maxStep (some a.1, some a.2) p = (some a.1, some a.2) := by
        simp [maxStep, gtMax, hc]
      have h2 : runMax a (p :: rest) = runMax a rest := by
        simp [runMax, hc]
      simp only [List.foldl_cons, h1, h2]
      exact ih a

theorem foldl_maxStep_none (L : List (ℚ × ℚ)) (p : ℚ × ℚ) (x : Option ℚ) :
    ((p :: L).foldl maxStep (none, x))
      = (some (runMax p L).1, some (runMax p L).2) := by
  have h1 : maxStep (none, x) p = (some p.1, some p.2) := by simp [maxStep, gtMax]
  simp only [List.foldl_cons, h1]
  exact foldl_maxStep_some L p

theorem runMin_le (L : List (ℚ × ℚ)) : ∀ a : ℚ × ℚ,
    (runMin a L).1 ≤ a.1 ∧ ∀ q ∈ L, (runMin a L).1 ≤ q.1 := by
  induction L with
  | nil => intro a; simp [runMin]
  | cons p rest ih =>
    intro a
    by_cases hc : p.1 < a.1
    · have h2 : runMin a (p :: rest) = runMin p rest := by simp [runMin, hc]
      obtain ⟨hle, hall⟩ := ih p
      refine ⟨?_, ?_⟩
      · rw [h2]; exact hle.trans hc.le
      · intro q hq
        rw [h2]
        rcases List.mem_cons.mp hq with h | h
        · subst h; exact hle
        · exact hall q h
    · have h2 : runMin a (p :: rest) = runMin a rest := by simp [runMin, hc]
      obtain ⟨hle, hall⟩ := ih a
      refine ⟨?_, ?_⟩
      · rw [h2]; exact hle
      · intro q hq
        rw [h2]
        rcases List.mem_cons.mp hq with h | h
        · subst h; exact hle.trans (not_lt.mp hc)
        · exact hall q h

theorem runMax_le (L : List (ℚ × ℚ)) : ∀ a : ℚ × ℚ,
    a.1 ≤ (runMax a L).1 ∧ ∀ q ∈ L, q.1 ≤ (runMax a L).1 := by
  induction L with
  | nil => intro a; simp [runMax]
  | cons p rest ih =>
    intro a
    by_cases hc : a.1 < p.1
    · have h2 : runMax a (p :: rest) = runMax p rest := by simp [runMax, hc]
      obtain ⟨hle, hall⟩ := ih p
      refine ⟨?_, ?_⟩
      · rw [h2]; exact hc.le.trans hle
      · intro q hq
        rw [h2]
        rcases List.mem_cons.mp hq with h | h
        · subst h; exact hle
        · exact hall q h
    · have h2 : runMax a (p :: rest) = runMax a rest := by simp [runMax, hc]
      obtain ⟨hle, hall⟩ := ih a
      refine ⟨?_, ?_⟩
      · rw [h2]; exact hle
      · intro q hq
        rw [h2]
        rcases List.mem_cons.mp hq with h | h
        · subst h; exact (not_lt.mp hc).trans hle
        · exact hall q h

theorem runMin_find (L : List (ℚ × ℚ)) : ∀ a : ℚ × ℚ,
    (a :: L).find? (fun q => decide (q.1 = (runMin a L).1)) = some (runMin a L) := by
  induction L with
  | nil => intro a; simp [runMin, List.find?]
  | cons p rest ih =>
    intro a
    by_cases hc : p.1 < a.1
    · have h2 : runMin a (p :: rest) = runMin p rest := by simp [runMin, hc]
      rw [h2]
      have hm : (runMin p rest).1 ≤ p.1 := (runMin_le rest p).1
      have hne : ¬ a.1 = (runMin p rest).1 := by
        intro h
        rw [h] at hc
        exact absurd (hm.trans_lt hc) (lt_irrefl _)
      rw [List.find?_cons_of_neg _ (by simp [hne])]
      exact ih p
    · have h2 : runMin a (p :: rest) = runMin a rest := by simp [runMin, hc]
      rw [h2]
      have hap : a.1 ≤ p.1 := not_lt.mp hc
      have hm : (runMin a rest).1 ≤ a.1 := (runMin_le rest a).1
      by_cases ha : a.1 = (runMin a rest).1
      · have hhead := ih a
        rw [List.find?_cons_of_pos _ (by simp [ha])] at hhead
        rw [List.find?_cons_of_pos _ (by simp [ha])]
        exact hhead
      · have htail := ih a
        rw [List.find?_cons_of_neg _ (by simp [ha])] at htail
        have hpne : ¬ p.1 = (runMin a rest).1 := by
          intro h
          exact ha (le_antisymm (h ▸ hap) hm)
        rw [List.find?_cons_of_neg _ (by simp [ha]),
            List.find?_cons_of_neg _ (by simp [hpne])]
        exact htail

theorem runMax_find (L : List (ℚ × ℚ)) : ∀ a : ℚ × ℚ,
    (a :: L).find? (fun q => decide (q.1 = (runMax a L).1)) = some (runMax a L) := by
  induction L with
  | nil => intro a; simp [runMax, List.find?]
  | cons p rest ih =>
    intro a
    by_cases hc : a.1 < p.1
    · have h2 : runMax a (p :: rest) = runMax p rest := by simp [runMax, hc]
      rw [h2]
      have hm : p.1 ≤ (runMax p rest).1 := (runMax_le rest p).1
      have hne : ¬ a.1 = (runMax p rest).1 := by
        intro h
        rw [h] at hc
        exact absurd (hc.trans_le hm) (lt_irrefl _)
      rw [List.find?_cons_of_neg _ (by simp [hne])]
      exact ih p
    · have h2 : runMax a (p :: rest) = runMax a rest := by simp [runMax, hc]
      rw [h2]
      have hap : p.1 ≤ a.1 := not_lt.mp hc
      have hm : a.1 ≤ (runMax a rest).1 := (runMax_le rest a).1
      by_cases ha : a.1 = (runMax a rest).1
      · have hhead := ih a
        rw [List.find?_cons_of_pos _ (by simp [ha])] at hhead
        rw [List.find?_cons_of_pos _ (by simp [ha])]
        exact hhead
      · have htail := ih a
        rw [List.find?_cons_of_neg _ (by simp [ha])] at htail
        have hpne : ¬ p.1 = (runMax a rest).1 := by
          intro h
          exact ha (le_antisymm hm (h ▸ hap))
        rw [List.find?_cons_of_neg _ (by simp [ha]),
            List.find?_cons_of_neg _ (by simp [hpne])]
        exact htail

theorem analyze_eq_none_of_rel (trade : TradeRecord) (ohlcvData : List OhlcvRow)
    (now : ℚ) (h : relevantCandles trade ohlcvData now = []) :
    analyzeTradePerformance trade ohlcvData now = ⟨trade, none⟩ := by
  by_cases he : ohlcvData.isEmpty
  · simp [analyzeTradePerformance, he]
  · simp [analyzeTradePerformance, he, h]

theorem analyze_analysis_of_ne (trade : TradeRecord) (ohlcvData : List OhlcvRow)
    (now : ℚ) (hne : relevantCandles trade ohlcvData now ≠ []) :
    (analyzeTradePerformance trade ohlcvData now).analysis = some
      { minPrice := (scanResult (relevantCandles trade ohlcvData now)).minPrice
        maxPrice := (scanResult (relevantCandles trade ohlcvData now)).maxPrice
        minTimestamp := (scanResult (relevantCandles trade ohlcvData now)).minTimestamp
        maxTimestamp := (scanResult (relevantCandles trade ohlcvData now)).maxTimestamp
        pnlPercent := pnlPercentOf trade
        maxGainPercent :=
          maxGainPercentOf trade (scanResult (relevantCandles trade ohlcvData now))
        maxDrawdownPercent :=
          maxDrawdownPercentOf trade (scanResult (relevantCandles trade ohlcvData now))
        capturedPercent := capturedPercentOf (pnlPercentOf trade)
          (maxGainPercentOf trade (scanResult (relevantCandles trade ohlcvData now)))
        candleCount := (relevantCandles trade ohlcvData now).length } := by
  have hoh : ¬ ohlcvData.isEmpty := by
    intro h
    rw [List.isEmpty_iff] at h
    subst h
    simp [relevantCandles] at hne
  have hrel : ¬ (relevantCandles trade ohlcvData now).isEmpty := by
    rw [List.isEmpty_iff]; exact hne
  simp [analyzeTradePerformance, hoh, hrel]

theorem relevant_ne_of_analysis_some (trade : TradeRecord)
    (ohlcvData : List OhlcvRow) (now : ℚ) (a : PerformanceSummary)
    (ha : (analyzeTradePerformance trade ohlcvData now).analysis = some a) :
    relevantCandles trade ohlcvData now ≠ [] := by
  intro h
  rw [analyze_eq_none_of_rel trade ohlcvData now h] at ha
  cases ha

/-- C2: for every trade record, if the fetched candle series is empty, or no
candle timestamp (in milliseconds) falls within the inclusive window
[buyInstant, endInstant], the analyzer returns the trade with a null
analysis and produces no summary; being a total function, it throws
nothing. -/
theorem claim_C2 (trade : TradeRecord) (ohlcvData : List OhlcvRow) (now : ℚ)
    (h : ohlcvData = [] ∨ ∀ row ∈ ohlcvData, ∀ ts : ℚ, row[0]? = some ts →
      ¬(buyTime trade ≤ ts * 1000 ∧ ts * 1000 ≤ sellTime trade now)) :
    analyzeTradePerformance trade ohlcvData now = ⟨trade, none⟩ := by
  rcases h with h | h
  · subst h; rfl
  · have hrel : relevantCandles trade ohlcvData now = [] := by
      rw [relevantCandles, List.filter_eq_nil_iff]
      intro row hrow
      rcases h0 : row[0]? with _ | ts
      · simp [inWindow, h0]
      · have hh := h row hrow ts h0
        simp only [inWindow, h0, Bool.and_eq_true, decide_eq_true_eq]
        tauto
    exact analyze_eq_none_of_rel trade ohlcvData now hrel

theorem claim_C2_witness :
    (([] : List OhlcvRow) = [] ∨ ∀ row ∈ ([] : List OhlcvRow), ∀ ts : ℚ,
        row[0]? = some ts →
        ¬(buyTime ⟨1, 0, none, some 1000, "open"⟩ ≤ ts * 1000
          ∧ ts * 1000 ≤ sellTime ⟨1, 0, none, some 1000, "open"⟩ 0))
    ∧ analyzeTradePerformance ⟨1, 0, none, some 1000, "open"⟩ [] 0
      = ⟨⟨1, 0, none, some 1000, "open"⟩, none⟩ :=
  ⟨Or.inl rfl, claim_C2 _ _ _ (Or.inl rfl)⟩

/-- C4: the window filter is boundary-inclusive: provided the window is
non-degenerate (buyInstant up to endInstant), a candle whose timestamp in
milliseconds equals exactly buyInstant or exactly endInstant is kept by the
filter, and a candle strictly outside the window is excluded. -/
theorem claim_C4 (trade : TradeRecord) (ohlcvData : List OhlcvRow) (now : ℚ)
    (row : OhlcvRow) (ts : ℚ) (hmem : row ∈ ohlcvData) (h0 : row[0]? = some ts)
    (hord : buyTime trade ≤ sellTime trade now) :
    ((ts * 1000 = buyTime trade ∨ ts * 1000 = sellTime trade now) →
       row ∈ relevantCandles trade ohlcvData now)
    ∧ ((ts * 1000 < buyTime trade ∨ sellTime trade now < ts * 1000) →
       row ∉ relevantCandles trade ohlcvData now) := by
  constructor
  · intro hb
    rw [relevantCandles, List.mem_filter]
    refine ⟨hmem, ?_⟩
    simp only [inWindow, h0, Bool.and_eq_true, decide_eq_true_eq]
    rcases hb with hb | hb
    · rw [hb]; exact ⟨le_refl _, hord⟩
    · rw [hb]; exact ⟨hord, le_refl _⟩
  · intro hb hmemrel
    rw [relevantCandles, List.mem_filter] at hmemrel
    obtain ⟨-, hcond⟩ := hmemrel
    simp only [inWindow, h0, Bool.and_eq_true, decide_eq_true_eq] at hcond
    rcases hb with hb | hb
    · exact absurd hcond.1 (not_le.mpr hb)
    · exact absurd hcond.2 (not_le.mpr hb)

theorem claim_C4_witness :
    ([(1 : ℚ), 0, 0, 0, 0, 0] ∈ [[(1 : ℚ), 0, 0, 0, 0, 0], [4, 0, 0, 0, 0, 0]]
      ∧ ([(1 : ℚ), 0, 0, 0, 0, 0])[0]? = some 1
      ∧ buyTime ⟨1, 1000, none, some 3000, "open"⟩
          ≤ sellTime ⟨1, 1000, none, some 3000, "open"⟩ 0)
    ∧ (((1 : ℚ) * 1000 = buyTime ⟨1, 1000, none, some 3000, "open"⟩
          ∨ (1 : ℚ) * 1000 = sellTime ⟨1, 1000, none, some 3000, "open"⟩ 0) →
        [(1 : ℚ), 0, 0, 0, 0, 0] ∈ relevantCandles ⟨1, 1000, none, some 3000, "open"⟩
          [[(1 : ℚ), 0, 0, 0, 0, 0], [4, 0, 0, 0, 0, 0]] 0)
      ∧ (((1 : ℚ) * 1000 < buyTime ⟨1, 1000, none, some 3000, "open"⟩
          ∨ sellTime ⟨1, 1000, none, some 3000, "open"⟩ 0 < (1 : ℚ) * 1000) →
        [(1 : ℚ), 0, 0, 0, 0, 0] ∉ relevantCandles ⟨1, 1000, none, some 3000, "open"⟩
          [[(1 : ℚ), 0, 0, 0, 0, 0], [4, 0, 0, 0, 0, 0]] 0) :=
  ⟨⟨by decide, by decide, by decide⟩,
    claim_C4 _ _ _ _ _ (by decide) (by decide) (by decide)⟩

/-- C5: the analyzer is stateless and idempotent: it reads no shared state,
and two invocations with the same trade record, the same candle series and
the same evaluation instant yield identical results. -/
theorem claim_C5 (trade1 trade2 : TradeRecord) (l1 l2 : List OhlcvRow)
    (now1 now2 : ℚ) (ht : trade1 = trade2) (hl : l1 = l2) (hn : now1 = now2) :
    analyzeTradePerformance trade1 l1 now1 = analyzeTradePerformance trade2 l2 now2 := by
  rw [ht, hl, hn]

theorem claim_C5_witness :
    ((⟨1, 0, none, none, "open"⟩ : TradeRecord) = ⟨1, 0, none, none, "open"⟩
      ∧ [[(1 : ℚ), 2, 3, 4, 5, 6]] = [[(1 : ℚ), 2, 3, 4, 5, 6]]
      ∧ (7 : ℚ) = 7)
    ∧ analyzeTradePerformance ⟨1, 0, none, none, "open"⟩ [[(1 : ℚ), 2, 3, 4, 5, 6]] 7
      = analyzeTradePerformance ⟨1, 0, none, none, "open"⟩ [[(1 : ℚ), 2, 3, 4, 5, 6]] 7 :=
  ⟨⟨rfl, rfl, rfl⟩, claim_C5 _ _ _ _ _ _ rfl rfl rfl⟩

/-- C6 counterexample: the claim also asserts that a non-2xx response yields
an empty candle series, but the source never inspects the HTTP status code:
a status-500 response whose JSON body carries an ohlcv_list is returned
non-empty, refuting the claim as stated at this concrete input. -/
theorem claim_C6_counterexample :
    getOHLCV (FetchOutcome.response 500 (some ⟨some [[1, 2, 3, 4, 5, 6]]⟩)) ≠ [] := by
  decide

/-- C6 (amended): a network failure, a malformed JSON body, or a response
whose body lacks the candle list each yield an empty candle series; the HTTP
status is never inspected, so this holds for any status code, and the
client, being a total function into candle lists, never propagates an
exception or error value. -/
theorem claim_C6 :
    getOHLCV FetchOutcome.networkError = []
    ∧ (∀ status : Nat, getOHLCV (FetchOutcome.response status none) = [])
    ∧ (∀ status : Nat, getOHLCV (FetchOutcome.response status (some ⟨none⟩)) = []) :=
  ⟨rfl, fun _ => rfl, fun _ => rfl⟩

/-- C7 counterexample: the client does not map raw elements into the
named-field canonical Candle shape: a seven-entry raw positional row is
returned verbatim to the caller, a shape no canonical candle has, so no
normalization happens in the client. -/
theorem claim_C7_counterexample :
    getOHLCV (FetchOutcome.response 200 (some ⟨some [[1, 2, 3, 4, 5, 6, 7]]⟩))
      = [[1, 2, 3, 4, 5, 6, 7]] := rfl

/-- C7 (amended): the client returns the provider's raw array-of-arrays
elements unchanged, and the positional-to-named interpretation happens
inside the analyzer instead: the scan of a well-formed row coincides with
the scan of exactly the canonical fields [timestamp, open, high, low,
close] that normalizeRow assigns to it. -/
theorem claim_C7 :
    (∀ (status : Nat) (l : List OhlcvRow),
        getOHLCV (FetchOutcome.response status (some ⟨some l⟩)) = l)
    ∧ (∀ (st : ScanState) (t o h lo cl : ℚ) (rest : List ℚ),
        scanStep st (t :: o :: h :: lo :: cl :: rest)
          = scanStep st [t, o, h, lo, cl]
        ∧ normalizeRow (t :: o :: h :: lo :: cl :: rest)
          = some ⟨t, o, h, lo, cl, rest.head?⟩) :=
  ⟨fun _ _ => rfl, fun _ _ _ _ _ _ _ => ⟨rfl, rfl⟩⟩

/-- C8 counterexample: the claim ties the window end to the open/closed
status, but the analyzer branches on the sell timestamp: a trade submitted
with no sell price (status "open") but with a sell time recorded is
evaluated up to that sell time, not up to the current instant, so a candle
between the two is excluded and no analysis is produced where the claim
would demand one. -/
theorem claim_C8_counterexample :
    (handleSubmitTrade 1 0 none (some 5000)).status = "open"
    ∧ sellTime (handleSubmitTrade 1 0 none (some 5000)) 9999 = 5000
    ∧ sellTime (handleSubmitTrade 1 0 none (some 5000)) 9999 ≠ 9999
    ∧ (analyzeTradePerformance (handleSubmitTrade 1 0 none (some 5000))
        [[6, 0, 0, 0, 0, 0]] 9999).analysis = none := by
  refine ⟨rfl, rfl, by decide, ?_⟩
  norm_num [analyzeTradePerformance, handleSubmitTrade, relevantCandles, inWindow,
    sellTime, buyTime, List.filter]

/-- C8 (amended): the analyzer's window start is the trade's buy timestamp
in milliseconds, and its end is the trade's recorded sell timestamp whenever
one is present and the current wall-clock instant otherwise, independently
of the open/closed status; the form derives that status from the sell-price
field alone. -/
theorem claim_C8 :
    (∀ (trade : TradeRecord) (now : ℚ),
        buyTime trade = trade.buyTimestamp
        ∧ sellTime trade now = trade.sellTimestamp.getD now)
    ∧ (∀ (bp bt : ℚ) (sellTsF : Option ℚ),
        (handleSubmitTrade bp bt none sellTsF).status = "open")
    ∧ (∀ (bp bt sp : ℚ) (sellTsF : Option ℚ),
        (handleSubmitTrade bp bt (some sp) sellTsF).status = "closed") := by
  refine ⟨fun trade now => ⟨rfl, ?_⟩, fun _ _ _ => rfl, fun _ _ _ _ => rfl⟩
  cases h : trade.sellTimestamp <;> simp [sellTime, h]

/-- C9: the analyzer's sell check is JavaScript truthiness, not a null
check: a trade whose recorded sellPrice equals 0 is treated as having no
sell, so whenever a summary is produced its pnlPercent and capturedPercent
are both null. -/
theorem claim_C9 (trade : TradeRecord) (ohlcvData : List OhlcvRow) (now : ℚ)
    (a : PerformanceSummary) (hsell : trade.sellPrice = some 0)
    (ha : (analyzeTradePerformance trade ohlcvData now).analysis = some a) :
    a.pnlPercent = none ∧ a.capturedPercent = none := by
  have hne := relevant_ne_of_analysis_some trade ohlcvData now a ha
  rw [analyze_analysis_of_ne trade ohlcvData now hne] at ha
  have hrec := Option.some_inj.mp ha
  subst hrec
  constructor
  · simp [pnlPercentOf, hsell]
  · simp [capturedPercentOf, pnlPercentOf, hsell]

theorem claim_C9_witness :
    ((⟨2, 0, some 0, some 10000, "closed"⟩ : TradeRecord).sellPrice = some 0
      ∧ (analyzeTradePerformance ⟨2, 0, some 0, some 10000, "closed"⟩
          [[1, 4, 6, 2, 5, 9]] 0).analysis
        = some ⟨some 2, some 6, some 1000, some 1000, none, some 200, some 0, none, 1⟩)
    ∧ ((⟨some 2, some 6, some 1000, some 1000, none, some 200, some 0, none, 1⟩ :
          PerformanceSummary).pnlPercent = none
      ∧ (⟨some 2, some 6, some 1000, some 1000, none, some 200, some 0, none, 1⟩ :
          PerformanceSummary).capturedPercent = none) := by
  have heval : (analyzeTradePerformance ⟨2, 0, some 0, some 10000, "closed"⟩
      [[1, 4, 6, 2, 5, 9]] 0).analysis
      = some ⟨some 2, some 6, some 1000, some 1000, none, some 200, some 0, none, 1⟩ := by
    norm_num [analyzeTradePerformance, relevantCandles, inWindow, sellTime, buyTime,
      List.filter, scanResult, scanStep, initScan, ltMin, gtMax, pnlPercentOf,
      maxGainPercentOf, maxDrawdownPercentOf, capturedPercentOf, percentFrom]
  exact ⟨⟨rfl, heval⟩,
    claim_C9 ⟨2, 0, some 0, some 10000, "closed"⟩ [[1, 4, 6, 2, 5, 9]] 0
      ⟨some 2, some 6, some 1000, some 1000, none, some 200, some 0, none, 1⟩ rfl heval⟩

/-- C3 counterexample: the claim asserts pnlPercent is non-null exactly when
a sell price is recorded, but a trade whose recorded sell price is 0 (a
recorded numeric price, status "closed") still gets a null pnlPercent,
because the source's sell check is truthiness, refuting the claim as stated
at this concrete input. -/
theorem claim_C3_counterexample :
    (⟨1, 0, some 0, some 10000, "closed"⟩ : TradeRecord).sellPrice = some 0
    ∧ (analyzeTradePerformance ⟨1, 0, some 0, some 10000, "closed"⟩
        [[2, 1, 3, 1, 2, 0]] 0).analysis
      = some ⟨some 1, some 3, some 2000, some 2000, none, some 200, some 0, none, 1⟩
    ∧ (⟨some 1, some 3, some 2000, some 2000, none, some 200, some 0, none, 1⟩ :
        PerformanceSummary).pnlPercent = none := by
  refine ⟨rfl, ?_, rfl⟩
  norm_num [analyzeTradePerformance, relevantCandles, inWindow, sellTime, buyTime,
    List.filter, scanResult, scanStep, initScan, ltMin, gtMax, pnlPercentOf,
    maxGainPercentOf, maxDrawdownPercentOf, capturedPercentOf, percentFrom]

/-- C3 (amended): for every analyzed trade, pnlPercent is non-null exactly
when a non-zero (truthy) sell price is recorded, with value
(sellPrice - buyPrice) / buyPrice * 100, and capturedPercent equals
(pnlPercent / maxGainPercent) * 100 exactly when pnlPercent is non-null and
maxGainPercent is a value greater than 0; in every other case
capturedPercent is null. -/
theorem claim_C3 (trade : TradeRecord) (ohlcvData : List OhlcvRow) (now : ℚ)
    (a : PerformanceSummary)
    (ha : (analyzeTradePerformance trade ohlcvData now).analysis = some a) :
    (∀ p : ℚ, a.pnlPercent = some p ↔
      ∃ sp : ℚ, trade.sellPrice = some sp ∧ sp ≠ 0
        ∧ p = (sp - trade.buyPrice) / trade.buyPrice * 100)
    ∧ (∀ v : ℚ, a.capturedPercent = some v ↔
      ∃ p g : ℚ, a.pnlPercent = some p ∧ a.maxGainPercent = some g ∧ 0 < g
        ∧ v = p / g * 100) := by
  have hne := relevant_ne_of_analysis_some trade ohlcvData now a ha
  rw [analyze_analysis_of_ne trade ohlcvData now hne] at ha
  have hrec := Option.some_inj.mp ha
  subst hrec
  constructor
  · intro p
    constructor
    · intro hp
      simp only at hp
      rcases hs : trade.sellPrice with _ | sp
      · simp [pnlPercentOf, hs] at hp
      · by_cases h0 : sp = 0
        · simp [pnlPercentOf, hs, h0] at hp
        · simp only [pnlPercentOf, hs, h0, if_false, if_neg h0,
            Option.some_inj] at hp
          exact ⟨sp, rfl, h0, by rw [← hp, percentFrom]⟩
    · rintro ⟨sp, hs, h0, hval⟩
      simp [pnlPercentOf, hs, h0, percentFrom, hval]
  · intro v
    constructor
    · intro hv
      simp only at hv
      rcases hp : pnlPercentOf trade with _ | p
      · simp [capturedPercentOf, hp] at hv
      · rcases hg : maxGainPercentOf trade
            (scanResult (relevantCandles trade ohlcvData now)) with _ | g
        · simp [capturedPercentOf, hp, hg] at hv
        · by_cases hgpos : 0 < g
          · simp only [capturedPercentOf, hp, hg, if_pos hgpos,
              Option.some_inj] at hv
            exact ⟨p, g, by simp [hp], by simp [hg], hgpos, hv.symm⟩
          · simp [capturedPercentOf, hp, hg, hgpos] at hv
    · rintro ⟨p, g, hp, hg, hgpos, hval⟩
      simp only at hp hg
      simp [capturedPercentOf, hp, hg, hgpos, hval]

/-- C1: for every trade record and every non-empty window of well-formed
filtered candles, the extremum scan returns minPrice equal to the minimum
low over the window and maxPrice equal to the maximum high, each paired with
the millisecond timestamp of the candle where it occurred; when several
candles share the extremal value the first one in iteration order supplies
the timestamp (witnessed by find? locating exactly the returned pair). -/
theorem claim_C1 (trade : TradeRecord) (ohlcvData : List OhlcvRow) (now : ℚ)
    (hne : relevantCandles trade ohlcvData now ≠ [])
    (hwf : ∀ row ∈ relevantCandles trade ohlcvData now, 4 ≤ row.length) :
    ∃ a : PerformanceSummary,
      (analyzeTradePerformance trade ohlcvData now).analysis = some a
      ∧ ∃ m tm M tM : ℚ,
        a.minPrice = some m ∧ a.minTimestamp = some tm
        ∧ a.maxPrice = some M ∧ a.maxTimestamp = some tM
        ∧ (∀ row ∈ relevantCandles trade ohlcvData now,
            ∀ lo : ℚ, row[3]? = some lo → m ≤ lo)
        ∧ (∀ row ∈ relevantCandles trade ohlcvData now,
            ∀ hi : ℚ, row[2]? = some hi → hi ≤ M)
        ∧ (lowsOf (relevantCandles trade ohlcvData now)).find?
            (fun q => decide (q.1 = m)) = some (m, tm)
        ∧ (highsOf (relevantCandles trade ohlcvData now)).find?
            (fun q => decide (q.1 = M)) = some (M, tM) := by
  obtain ⟨r, rs, hcons⟩ :=
    List.exists_cons_of_ne_nil hne
  have hr4 : 4 ≤ r.length := hwf r (by rw [hcons]; exact List.mem_cons_self r rs)
  obtain ⟨lo3, hr3⟩ : ∃ x, r[3]? = some x := by
    rcases h : r[3]? with _ | x
    · rw [List.getElem?_eq_none_iff] at h; omega
    · exact ⟨x, rfl⟩
  obtain ⟨hi2, hr2⟩ : ∃ x, r[2]? = some x := by
    rcases h : r[2]? with _ | x
    · rw [List.getElem?_eq_none_iff] at h; omega
    · exact ⟨x, rfl⟩
  obtain ⟨t0, hr0⟩ : ∃ x, r[0]? = some x := by
    rcases h : r[0]? with _ | x
    · rw [List.getElem?_eq_none_iff] at h; omega
    · exact ⟨x, rfl⟩
  have hlowcons : lowsOf (relevantCandles trade ohlcvData now)
      = (lo3, t0 * 1000) :: lowsOf rs := by
    rw [hcons]
    simp [lowsOf, List.filterMap_cons, hr3, hr0]
  have hhighcons : highsOf (relevantCandles trade ohlcvData now)
      = (hi2, t0 * 1000) :: highsOf rs := by
    rw [hcons]
    simp [highsOf, List.filterMap_cons, hr2, hr0]
  have hmin : ((scanResult (relevantCandles trade ohlcvData now)).minPrice,
      (scanResult (relevantCandles trade ohlcvData now)).minTimestamp)
      = (some (runMin (lo3, t0 * 1000) (lowsOf rs)).1,
         some (runMin (lo3, t0 * 1000) (lowsOf rs)).2) := by
    have h := foldl_scan_min (relevantCandles trade ohlcvData now) initScan
    rw [hlowcons] at h
    simp only [initScan] at h
    rw [foldl_minStep_none] at h
    exact h
  have hmax : ((scanResult (relevantCandles trade ohlcvData now)).maxPrice,
      (scanResult (relevantCandles trade ohlcvData now)).maxTimestamp)
      = (some (runMax (hi2, t0 * 1000) (highsOf rs)).1,
         some (runMax (hi2, t0 * 1000) (highsOf rs)).2) := by
    have h := foldl_scan_max (relevantCandles trade ohlcvData now) initScan
    rw [hhighcons] at h
    simp only [initScan] at h
    rw [foldl_maxStep_none] at h
    exact h
  rw [Prod.ext_iff] at hmin hmax
  obtain ⟨hmin1, hmin2⟩ := hmin
  obtain ⟨hmax1, hmax2⟩ := hmax
  refine ⟨_, analyze_analysis_of_ne trade ohlcvData now hne,
    (runMin (lo3, t0 * 1000) (lowsOf rs)).1, (runMin (lo3, t0 * 1000) (lowsOf rs)).2,
    (runMax (hi2, t0 * 1000) (highsOf rs)).1, (runMax (hi2, t0 * 1000) (highsOf rs)).2,
    hmin1, hmin2, hmax1, hmax2, ?_, ?_, ?_, ?_⟩
  · intro row hrow lo hlo
    obtain ⟨t, ht⟩ := entry_zero_of_entry_three hlo
    have hmem : (lo, t * 1000) ∈ lowsOf (relevantCandles trade ohlcvData now) := by
      rw [lowsOf, List.mem_filterMap]
      exact ⟨row, hrow, by simp [hlo, ht]⟩
    rw [hlowcons] at hmem
    rcases List.mem_cons.mp hmem with h | h
    · have hfst : lo = lo3 := congrArg Prod.fst h
      rw [hfst]
      exact (runMin_le (lowsOf rs) (lo3, t0 * 1000)).1
    · exact (runMin_le (lowsOf rs) (lo3, t0 * 1000)).2 (lo, t * 1000) h
  · intro row hrow hi hhi
    obtain ⟨t, ht⟩ := entry_zero_of_entry_two hhi
    have hmem : (hi, t * 1000) ∈ highsOf (relevantCandles trade ohlcvData now) := by
      rw [highsOf, List.mem_filterMap]
      exact ⟨row, hrow, by simp [hhi, ht]⟩
    rw [hhighcons] at hmem
    rcases List.mem_cons.mp hmem with h | h
    · have hfst : hi = hi2 := congrArg Prod.fst h
      rw [hfst]
      exact (runMax_le (highsOf rs) (hi2, t0 * 1000)).1
    · exact (runMax_le (highsOf rs) (hi2, t0 * 1000)).2 (hi, t * 1000) h
  · rw [hlowcons, runMin_find (lowsOf rs) (lo3, t0 * 1000), Prod.mk.eta]
  · rw [hhighcons, runMax_find (highsOf rs) (hi2, t0 * 1000), Prod.mk.eta]

theorem claim_C1_witness :
    (relevantCandles ⟨2, 0, none, some 4000, "open"⟩
        [[1, 5, 6, 5, 6, 0], [2, 4, 9, 3, 5, 0], [3, 9, 10, 8, 9, 0]] 0 ≠ []
      ∧ ∀ row ∈ relevantCandles ⟨2, 0, none, some 4000, "open"⟩
          [[1, 5, 6, 5, 6, 0], [2, 4, 9, 3, 5, 0], [3, 9, 10, 8, 9, 0]] 0,
          4 ≤ row.length)
    ∧ (∃ a : PerformanceSummary,
      (analyzeTradePerformance ⟨2, 0, none, some 4000, "open"⟩
          [[1, 5, 6, 5, 6, 0], [2, 4, 9, 3, 5, 0], [3, 9, 10, 8, 9, 0]] 0).analysis
        = some a
      ∧ ∃ m tm M tM : ℚ,
        a.minPrice = some m ∧ a.minTimestamp = some tm
        ∧ a.maxPrice = some M ∧ a.maxTimestamp = some tM
        ∧ (∀ row ∈ relevantCandles ⟨2, 0, none, some 4000, "open"⟩
              [[1, 5, 6, 5, 6, 0], [2, 4, 9, 3, 5, 0], [3, 9, 10, 8, 9, 0]] 0,
            ∀ lo : ℚ, row[3]? = some lo → m ≤ lo)
        ∧ (∀ row ∈ relevantCandles ⟨2, 0, none, some 4000, "open"⟩
              [[1, 5, 6, 5, 6, 0], [2, 4, 9, 3, 5, 0], [3, 9, 10, 8, 9, 0]] 0,
            ∀ hi : ℚ, row[2]? = some hi → hi ≤ M)
        ∧ (lowsOf (relevantCandles ⟨2, 0, none, some 4000, "open"⟩
              [[1, 5, 6, 5, 6, 0], [2, 4, 9, 3, 5, 0], [3, 9, 10, 8, 9, 0]] 0)).find?
            (fun q => decide (q.1 = m)) = some (m, tm)
        ∧ (highsOf (relevantCandles ⟨2, 0, none, some 4000, "open"⟩
              [[1, 5, 6, 5, 6, 0], [2, 4, 9, 3, 5, 0], [3, 9, 10, 8, 9, 0]] 0)).find?
            (fun q => decide (q.1 = M)) = some (M, tM)) := by
  have hrel : relevantCandles ⟨2, 0, none, some 4000, "open"⟩
      [[1, 5, 6, 5, 6, 0], [2, 4, 9, 3, 5, 0], [3, 9, 10, 8, 9, 0]] 0
      = [[1, 5, 6, 5, 6, 0], [2, 4, 9, 3, 5, 0], [3, 9, 10, 8, 9, 0]] := by
    norm_num [relevantCandles, inWindow, sellTime, buyTime, List.filter]
  refine ⟨⟨by rw [hrel]; decide, by rw [hrel]; decide⟩, ?_⟩
  exact claim_C1 _ _ _ (by rw [hrel]; decide) (by rw [hrel]; decide)

theorem claim_C3_witness :
    ((analyzeTradePerformance ⟨2, 0, some 3, some 10000, "closed"⟩
        [[1, 4, 6, 2, 5, 9]] 0).analysis
      = some ⟨some 2, some 6, some 1000, some 1000, some 50, some 200, some 0,
          some 25, 1⟩)
    ∧ ((∀ p : ℚ,
        (⟨some 2, some 6, some 1000, some 1000, some 50, some 200, some 0,
            some 25, 1⟩ : PerformanceSummary).pnlPercent = some p ↔
        ∃ sp : ℚ,
          (⟨2, 0, some 3, some 10000, "closed"⟩ : TradeRecord).sellPrice = some sp
          ∧ sp ≠ 0
          ∧ p = (sp - (⟨2, 0, some 3, some 10000, "closed"⟩ : TradeRecord).buyPrice)
              / (⟨2, 0, some 3, some 10000, "closed"⟩ : TradeRecord).buyPrice * 100)
      ∧ (∀ v : ℚ,
        (⟨some 2, some 6, some 1000, some 1000, some 50, some 200, some 0,
            some 25, 1⟩ : PerformanceSummary).capturedPercent = some v ↔
        ∃ p g : ℚ,
          (⟨some 2, some 6, some 1000, some 1000, some 50, some 200, some 0,
              some 25, 1⟩ : PerformanceSummary).pnlPercent = some p
          ∧ (⟨some 2, some 6, some 1000, some 1000, some 50, some 200, some 0,
              some 25, 1⟩ : PerformanceSummary).maxGainPercent = some g
          ∧ 0 < g ∧ v = p / g * 100)) := by
  have heval : (analyzeTradePerformance ⟨2, 0, some 3, some 10000, "closed"⟩
      [[1, 4, 6, 2, 5, 9]] 0).analysis
      = some ⟨some 2, some 6, some 1000, some 1000, some 50, some 200, some 0,
          some 25, 1⟩ := by
    norm_num [analyzeTradePerformance, relevantCandles, inWindow, sellTime, buyTime,
      List.filter, scanResult, scanStep, initScan, ltMin, gtMax, pnlPercentOf,
      maxGainPercentOf, maxDrawdownPercentOf, capturedPercentOf, percentFrom]
  exact ⟨heval, claim_C3 ⟨2, 0, some 3, some 10000, "closed"⟩ [[1, 4, 6, 2, 5, 9]] 0
    ⟨some 2, some 6, some 1000, some 1000, some 50, some 200, some 0, some 25, 1⟩
    heval⟩

/-- C10 counterexample: a degenerate row carrying only a timestamp passes
the window filter but supplies neither low nor high, so the analyzer
returns a summary in which the initial sentinels survive: minPrice,
maxPrice, minTimestamp and maxTimestamp are the initial Infinity/null
values even though candleCount is 1, refuting the claim as stated at this
concrete input. -/
theorem claim_C10_counterexample :
    ∃ a : PerformanceSummary,
      (analyzeTradePerformance ⟨1, 0, none, some 10000, "open"⟩ [[5]] 0).analysis
        = some a
      ∧ a.minTimestamp = none ∧ a.minPrice = none
      ∧ a.maxTimestamp = none ∧ a.maxPrice = none
      ∧ 1 ≤ a.candleCount := by
  refine ⟨⟨none, none, none, none, none, none, none, none, 1⟩, ?_,
    rfl, rfl, rfl, rfl, le_refl 1⟩
  norm_num [analyzeTradePerformance, relevantCandles, inWindow, sellTime, buyTime,
    List.filter, scanResult, scanStep, initScan, ltMin, gtMax, pnlPercentOf,
    maxGainPercentOf, maxDrawdownPercentOf, capturedPercentOf, percentFrom]

/-- C10 (amended): whenever the analyzer returns a non-null summary and
every filtered candle is well-formed (supplies at least its first four
entries, through the low at index 3), the summary is well-formed:
candleCount is at least 1, and minPrice with minTimestamp (respectively
maxPrice with maxTimestamp) are the low (respectively high) and the
millisecond timestamp of an actual candle of the filtered window, so the
initial sentinels never appear. -/
theorem claim_C10 (trade : TradeRecord) (ohlcvData : List OhlcvRow) (now : ℚ)
    (a : PerformanceSummary)
    (ha : (analyzeTradePerformance trade ohlcvData now).analysis = some a)
    (hwf : ∀ row ∈ relevantCandles trade ohlcvData now, 4 ≤ row.length) :
    1 ≤ a.candleCount
    ∧ (∃ row ∈ relevantCandles trade ohlcvData now, ∃ lo t : ℚ,
        row[3]? = some lo ∧ row[0]? = some t
        ∧ a.minPrice = some lo ∧ a.minTimestamp = some (t * 1000))
    ∧ (∃ row ∈ relevantCandles trade ohlcvData now, ∃ hi t : ℚ,
        row[2]? = some hi ∧ row[0]? = some t
        ∧ a.maxPrice = some hi ∧ a.maxTimestamp = some (t * 1000)) := by
  have hne := relevant_ne_of_analysis_some trade ohlcvData now a ha
  obtain ⟨r, rs, hcons⟩ := List.exists_cons_of_ne_nil hne
  have hr4 : 4 ≤ r.length := hwf r (by rw [hcons]; exact List.mem_cons_self r rs)
  obtain ⟨lo3, hr3⟩ : ∃ x, r[3]? = some x := by
    rcases h : r[3]? with _ | x
    · rw [List.getElem?_eq_none_iff] at h; omega
    · exact ⟨x, rfl⟩
  obtain ⟨hi2, hr2⟩ : ∃ x, r[2]? = some x := by
    rcases h : r[2]? with _ | x
    · rw [List.getElem?_eq_none_iff] at h; omega
    · exact ⟨x, rfl⟩
  obtain ⟨t0, hr0⟩ : ∃ x, r[0]? = some x := by
    rcases h : r[0]? with _ | x
    · rw [List.getElem?_eq_none_iff] at h; omega
    · exact ⟨x, rfl⟩
  have hlowcons : lowsOf (relevantCandles trade ohlcvData now)
      = (lo3, t0 * 1000) :: lowsOf rs := by
    rw [hcons]
    simp [lowsOf, List.filterMap_cons, hr3, hr0]
  have hhighcons : highsOf (relevantCandles trade ohlcvData now)
      = (hi2, t0 * 1000) :: highsOf rs := by
    rw [hcons]
    simp [highsOf, List.filterMap_cons, hr2, hr0]
  have hmin : ((scanResult (relevantCandles trade ohlcvData now)).minPrice,
      (scanResult (relevantCandles trade ohlcvData now)).minTimestamp)
      = (some (runMin (lo3, t0 * 1000) (lowsOf rs)).1,
         some (runMin (lo3, t0 * 1000) (lowsOf rs)).2) := by
    have h := foldl_scan_min (relevantCandles trade ohlcvData now) initScan
    rw [hlowcons] at h
    simp only [initScan] at h
    rw [foldl_minStep_none] at h
    exact h
  have hmax : ((scanResult (relevantCandles trade ohlcvData now)).maxPrice,
      (scanResult (relevantCandles trade ohlcvData now)).maxTimestamp)
      = (some (runMax (hi2, t0 * 1000) (highsOf rs)).1,
         some (runMax (hi2, t0 * 1000) (highsOf rs)).2) := by
    have h := foldl_scan_max (relevantCandles trade ohlcvData now) initScan
    rw [hhighcons] at h
    simp only [initScan] at h
    rw [foldl_maxStep_none] at h
    exact h
  rw [Prod.ext_iff] at hmin hmax
  obtain ⟨hmin1, hmin2⟩ := hmin
  obtain ⟨hmax1, hmax2⟩ := hmax
  rw [analyze_analysis_of_ne trade ohlcvData now hne] at ha
  have hrec := Option.some_inj.mp ha
  subst hrec
  refine ⟨?_, ?_, ?_⟩
  · show 1 ≤ (relevantCandles trade ohlcvData now).length
    rw [hcons]
    simp
  · have hmem := List.mem_of_find?_eq_some
      (runMin_find (lowsOf rs) (lo3, t0 * 1000))
    rw [← hlowcons, lowsOf, List.mem_filterMap] at hmem
    obtain ⟨row, hrow, hf⟩ := hmem
    rcases h3 : row[3]? with _ | lo
    · simp [h3] at hf
    rcases h0 : row[0]? with _ | t
    · simp [h3, h0] at hf
    simp only [h3, h0] at hf
    have hpair := Option.some_inj.mp hf
    have hlo : lo = (runMin (lo3, t0 * 1000) (lowsOf rs)).1 :=
      congrArg Prod.fst hpair
    have ht : t * 1000 = (runMin (lo3, t0 * 1000) (lowsOf rs)).2 :=
      congrArg Prod.snd hpair
    exact ⟨row, hrow, lo, t, h3, h0,
      by rw [hlo]; exact hmin1, by rw [ht]; exact hmin2⟩
  · have hmem := List.mem_of_find?_eq_some
      (runMax_find (highsOf rs) (hi2, t0 * 1000))
    rw [← hhighcons, highsOf, List.mem_filterMap] at hmem
    obtain ⟨row, hrow, hf⟩ := hmem
    rcases h2 : row[2]? with _ | hi
    · simp [h2] at hf
    rcases h0 : row[0]? with _ | t
    · simp [h2, h0] at hf
    simp only [h2, h0] at hf
    have hpair := Option.some_inj.mp hf
    have hhi : hi = (runMax (hi2, t0 * 1000) (highsOf rs)).1 :=
      congrArg Prod.fst hpair
    have ht : t * 1000 = (runMax (hi2, t0 * 1000) (highsOf rs)).2 :=
      congrArg Prod.snd hpair
    exact ⟨row, hrow, hi, t, h2, h0,
      by rw [hhi]; exact hmax1, by rw [ht]; exact hmax2⟩

theorem claim_C10_witness :
    ((analyzeTradePerformance ⟨1, 0, none, some 10000, "open"⟩
        [[1, 4, 6, 2, 5, 9]] 0).analysis
      = some ⟨some 2, some 6, some 1000, some 1000, none, some 500, some 100,
          none, 1⟩
      ∧ ∀ row ∈ relevantCandles ⟨1, 0, none, some 10000, "open"⟩
          [[1, 4, 6, 2, 5, 9]] 0, 4 ≤ row.length)
    ∧ (1 ≤ (⟨some 2, some 6, some 1000, some 1000, none, some 500, some 100,
          none, 1⟩ : PerformanceSummary).candleCount
      ∧ (∃ row ∈ relevantCandles ⟨1, 0, none, some 10000, "open"⟩
            [[1, 4, 6, 2, 5, 9]] 0, ∃ lo t : ℚ,
          row[3]? = some lo ∧ row[0]? = some t
          ∧ (⟨some 2, some 6, some 1000, some 1000, none, some 500, some 100,
              none, 1⟩ : PerformanceSummary).minPrice = some lo
          ∧ (⟨some 2, some 6, some 1000, some 1000, none, some 500, some 100,
              none, 1⟩ : PerformanceSummary).minTimestamp = some (t * 1000))
      ∧ (∃ row ∈ relevantCandles ⟨1, 0, none, some 10000, "open"⟩
            [[1, 4, 6, 2, 5, 9]] 0, ∃ hi t : ℚ,
          row[2]? = some hi ∧ row[0]? = some t
          ∧ (⟨some 2, some 6, some 1000, some 1000, none, some 500, some 100,
              none, 1⟩ : PerformanceSummary).maxPrice = some hi
          ∧ (⟨some 2, some 6, some 1000, some 1000, none, some 500, some 100,
              none, 1⟩ : PerformanceSummary).maxTimestamp = some (t * 1000))) := by
  have hrel : relevantCandles ⟨1, 0, none, some 10000, "open"⟩
      [[1, 4, 6, 2, 5, 9]] 0 = [[1, 4, 6, 2, 5, 9]] := by
    norm_num [relevantCandles, inWindow, sellTime, buyTime, List.filter]
  have heval : (analyzeTradePerformance ⟨1, 0, none, some 10000, "open"⟩
      [[1, 4, 6, 2, 5, 9]] 0).analysis
      = some ⟨some 2, some 6, some 1000, some 1000, none, some 500, some 100,
          none, 1⟩ := by
    norm_num [analyzeTradePerformance, relevantCandles, inWindow, sellTime, buyTime,
      List.filter, scanResult, scanStep, initScan, ltMin, gtMax, pnlPercentOf,
      maxGainPercentOf, maxDrawdownPercentOf, capturedPercentOf, percentFrom]
  exact ⟨⟨heval, by rw [hrel]; decide⟩,
    claim_C10 ⟨1, 0, none, some 10000, "open"⟩ [[1, 4, 6, 2, 5, 9]] 0
      ⟨some 2, some 6, some 1000, some 1000, none, some 500, some 100, none, 1⟩
      heval (by rw [hrel]; decide)⟩
